import Mathlib

/-!
Shallow embedding of the gorker dispatcher (gorker.go): a dynamically
resizable worker pool.  Go channels become explicit buffer lists with a
capacity, goroutine-local state becomes explicit state passing, machine
integers become Int, and operations that can panic or block forever are
modelled as Option-returning functions (none = the call does not complete).
The mutex, waitgroup pointer and context are represented by plain fields:
the waitgroup by its counter, the lifecycle context by a cancelled flag plus
a flag recording whether a cancel function has been installed.
-/

namespace Gorker

/-- Error value returned by a Go job closure: none models a nil error,
some e a non-nil error payload. -/
abbrev Err := Nat

/-- Result of running a job (the value of type error it returns). -/
abbrev Res := Option Err

/-- A task resident in the dispatcher queues: the closure built by Add,
which when executed sends the job result on its captured error channel.
Modelled by the job result it will deliver. -/
structure Task where
  res : Res
deriving DecidableEq, Repr

/-- A buffered Go channel: current buffer contents plus capacity. -/
structure GoChan (α : Type) where
  buf : List α
  cap : Nat
deriving DecidableEq, Repr

/-- Send on a buffered channel: appends when the buffer has room, otherwise
the sender blocks, modelled as none. -/
def chanSend {α : Type} (c : GoChan α) (a : α) : Option (GoChan α) :=
  if c.buf.length < c.cap then some ⟨c.buf ++ [a], c.cap⟩ else none

/-- Go's make(chan T, n): a negative capacity makes the runtime panic,
modelled as none. -/
def chanMake (α : Type) (c : Int) : Option (GoChan α) :=
  if c < 0 then none else some ⟨[], c.toNat⟩

/-- A worker: the kill field counts the signals buffered in its capacity-1
kill channel, running mirrors the worker.running flag. -/
structure Worker where
  kill    : Nat
  running : Bool
deriving DecidableEq, Repr

/-- The Dispatcher struct of gorker.go.  queue is the overflow slice, qin and
qout the intake and output channels, wg the waitgroup counter.  cancelled
records whether the current lifecycle context has been cancelled, hasCancel
whether StartWithContext has installed a cancel function (calling a nil
cancel function panics). -/
structure Dispatcher where
  running     : Bool
  scaling     : Bool
  resizing    : Bool
  queue       : List (Option Task)
  qin         : GoChan (Option Task)
  qout        : GoChan (Option Task)
  wg          : Int
  workerCount : Int
  workers     : List Worker
  cancelled   : Bool
  hasCancel   : Bool
deriving DecidableEq, Repr

/-- The package-level bufferSizeLimit = 1000000.0 constant. -/
def bufferSizeLimit : Int := 1000000

/-- The package-level defaultWorker = 3 constant. -/
def defaultWorker : Int := 3

/-- A freshly constructed worker, as built by New, UpScale and the worker
literal: empty kill channel, not running. -/
def mkWorker : Worker := ⟨0, false⟩

/-- New(maxWorker): coerces a count below 1 up to 1, then builds the
dispatcher of newDispatcher (fresh empty queues of capacity
min(maxWorker*100, bufferSizeLimit), zero waitgroup, background context) and
fills the worker slice with fresh not-started workers. -/
def New (maxWorker : Int) : Dispatcher :=
  let m := if maxWorker < 1 then 1 else maxWorker
  { running := false
    scaling := false
    resizing := false
    queue := []
    qin := ⟨[], (min (m * 100) bufferSizeLimit).toNat⟩
    qout := ⟨[], (min (m * 100) bufferSizeLimit).toNat⟩
    wg := 0
    workerCount := m
    workers := List.replicate m.toNat mkWorker
    cancelled := false
    hasCancel := false }

/-- The loop of StartWithContext over the worker slice: every worker that is
not already running is started (its running flag set; its goroutine is
spawned, which the state model does not track further). -/
def startAll (ws : List Worker) : List Worker :=
  ws.map (fun w => if w.running then w else { w with running := true })

/-- StartWithContext: derives a fresh cancellable lifecycle context (so the
cancelled flag resets and a cancel function is installed), starts every
worker that is not already running, and sets running = true. -/
def StartWithContext (d : Dispatcher) : Dispatcher :=
  { d with cancelled := false
           hasCancel := true
           workers := startAll d.workers
           running := true }

/-- Start() = StartWithContext(context.Background()). -/
def Start (d : Dispatcher) : Dispatcher := StartWithContext d

/-- ScaleBuffer(size): size becomes min(size*100, bufferSizeLimit); the
intake and output channels are replaced under lock by fresh empty channels
of that capacity (Go panics when the capacity is negative, modelled none),
and the waitgroup is incremented by 2 for the two drain goroutines spawned
over the old channels.  The drain goroutine bodies are modelled separately
by drainStep (their range loop) and drainInFinish / drainOutFinish (their
final append to d.queue, performed only if the loop ever exits). -/
def ScaleBuffer (d : Dispatcher) (size : Int) : Option Dispatcher :=
  let sz := min (size * 100) bufferSizeLimit
  match chanMake (Option Task) sz, chanMake (Option Task) sz with
  | some cin, some cout => some { d with qin := cin, qout := cout, wg := d.wg + 2 }
  | _, _ => none

/-- UpScale(workerCount): resizes the buffers via ScaleBuffer(workerCount*100),
sets scaling, appends workerCount - len(workers) fresh workers while that
difference stays at least 1, sets the target workerCount, calls Start when
the dispatcher is running, and clears scaling. -/
def UpScale (d : Dispatcher) (workerCount : Int) : Option Dispatcher :=
  (ScaleBuffer d (workerCount * 100)).map (fun d1 =>
    let d2 := { d1 with
      scaling := true
      workers := d1.workers ++
        List.replicate (workerCount - (d1.workers.length : Int)).toNat mkWorker
      workerCount := workerCount }
    let d3 := if d2.running then Start d2 else d2
    { d3 with scaling := false })

/-- worker.stop(): sends one signal on the capacity-1 kill channel (the send
blocks forever when the buffer is already full, modelled none) and clears
the running flag. -/
def Worker.stop (w : Worker) : Option Worker :=
  if w.kill < 1 then some ⟨w.kill + 1, false⟩ else none

/-- What DownScale does to one removed worker: worker.stop() when both the
dispatcher and the worker are running, nothing otherwise.  Used to state
specifications; the executable loop is dsLoop. -/
def stopIf (running : Bool) (w : Worker) : Worker :=
  if running && w.running then ⟨w.kill + 1, false⟩ else w

/-- The removal loop of DownScale: fuel is the remaining diff, idx the
rotating index.  Each iteration reads workers[idx] (an out-of-range index is
a Go panic, modelled none: with idx beyond the slice either the
workers[idx].running read or the workers[idx+1:] slice bound faults), stops
the worker when the dispatcher and the worker are running (none if that
kill send would block), removes it, advances and wraps the index.  Returns
the remaining workers together with one (original, after-stop) pair per
removed worker. -/
def dsLoop (running : Bool) :
    Nat → Nat → List Worker → List (Worker × Worker) →
    Option (List Worker × List (Worker × Worker))
  | 0, _, ws, acc => some (ws, acc)
  | diff + 1, idx, ws, acc =>
    (ws[idx]?).bind (fun w =>
      (if running && w.running then w.stop else some w).bind (fun w1 =>
        let ws1 := ws.eraseIdx idx
        let idx1 := if idx + 1 ≥ ws1.length then 0 else idx + 1
        dsLoop running diff idx1 ws1 ((w, w1) :: acc)))

/-- DownScale(workerCount), additionally reporting the removed workers:
resizes the buffers via ScaleBuffer(workerCount*100), sets scaling, runs the
removal loop with diff = len(workers) - workerCount, sets the target
workerCount and clears scaling. -/
def DownScaleFull (d : Dispatcher) (workerCount : Int) :
    Option (Dispatcher × List (Worker × Worker)) :=
  (ScaleBuffer d (workerCount * 100)).bind (fun d1 =>
    (dsLoop d1.running ((d1.workers.length - workerCount : Int)).toNat 0
        d1.workers []).map (fun p =>
      ({ d1 with scaling := false, workers := p.1, workerCount := workerCount },
        p.2)))

/-- DownScale as the dispatcher-state transformer. -/
def DownScale (d : Dispatcher) (workerCount : Int) : Option Dispatcher :=
  (DownScaleFull d workerCount).map Prod.fst

/-- AutoScale: DownScale(workerCount) when there are more workers than the
target, UpScale(workerCount) when fewer, otherwise nothing. -/
def AutoScale (d : Dispatcher) : Option Dispatcher :=
  if d.workerCount < (d.workers.length : Int) then DownScale d d.workerCount
  else if (d.workers.length : Int) < d.workerCount then UpScale d d.workerCount
  else some d

/-- Get(maxWorker), the singleton accessor: inst is the current value of the
package variable holding the shared dispatcher, onceDone whether the
sync.Once has already fired.  A count below 1 is coerced to 1; on the first
call the shared dispatcher is built by New; then workerCount is assigned and
AutoScale runs when the actual worker count differs. -/
def Get (inst : Dispatcher) (onceDone : Bool) (maxWorker : Int) :
    Option Dispatcher :=
  let m := if maxWorker < 1 then 1 else maxWorker
  let i1 := if onceDone then inst else New m
  let i2 := { i1 with workerCount := m }
  if (i2.workers.length : Int) ≠ m then AutoScale i2 else some i2

/-- Add(job): builds the error channel make(chan error, 1), increments the
waitgroup, and sends the wrapping closure on the intake channel (blocking,
modelled none, when qin is full).  Returns the new state, the completion
channel and the enqueued task. -/
def Add (d : Dispatcher) (job : Res) : Option (Dispatcher × GoChan Res × Task) :=
  let ech : GoChan Res := ⟨[], 1⟩
  let t : Task := ⟨job⟩
  (chanSend d.qin (some t)).map
    (fun qin1 => ({ d with wg := d.wg + 1, qin := qin1 }, ech, t))

/-- worker.run(job): defers wg.Done() and invokes the job only when it is
non-nil.  Invoking the closure built by Add sends the job result on its
completion channel; if that send blocks the deferred Done never runs either,
so the whole call is none. -/
def runTask (d : Dispatcher) (job : Option Task) (ech : GoChan Res) :
    Option (Dispatcher × GoChan Res) :=
  match job with
  | none => some ({ d with wg := d.wg - 1 }, ech)
  | some t =>
    (chanSend ech t.res).map (fun e1 => ({ d with wg := d.wg - 1 }, e1))

/-- Wait(): when running, blocks until the waitgroup counter reaches zero;
it mutates no dispatcher state, so on the state it is the identity. -/
def Wait (d : Dispatcher) : Dispatcher := d

/-- Stop(immediately): a no-op when not running.  Otherwise it waits first
when not immediate, calls d.cancel() (a nil-function panic, modelled none,
in the unreachable case where Start never installed one), clears running on
the receiver, and rebinds the local variable d to New(len(d.workers)) -- an
assignment that only changes the returned pointer, never the caller's
receiver.  Returns (receiver state after the call, returned dispatcher). -/
def Stop (d : Dispatcher) (immediately : Bool) :
    Option (Dispatcher × Dispatcher) :=
  if d.running = false then some (d, d)
  else if d.hasCancel = false then none
  else
    let d0 := if immediately then d else Wait d
    let dr := { d0 with cancelled := true, running := false }
    some (dr, New (dr.workers.length : Int))

/-- State of one drain goroutine of ScaleBuffer ranging over an old queue
channel: looping carries the jobs still resident at swap time plus the
accumulated local tmpQueue, blocked is the range receive parked on the
emptied channel, done is the loop exit that only a close of the channel can
produce. -/
inductive DrainState where
  | looping (remaining : List (Option Task)) (tmp : List (Option Task))
  | blocked (tmp : List (Option Task))
  | done (tmp : List (Option Task))
deriving DecidableEq, Repr

/-- One step of a drain goroutine's range loop; closed says whether the old
channel has been closed.  No code path in the package ever closes a queue
channel, so the loops only ever run with closed = false. -/
def drainStep (closed : Bool) : DrainState → DrainState
  | .looping (j :: rest) tmp => .looping rest (tmp ++ [j])
  | .looping [] tmp => if closed then .done tmp else .blocked tmp
  | .blocked tmp => if closed then .done tmp else .blocked tmp
  | .done tmp => .done tmp

/-- Final append of the qin drain goroutine, run under lock after its range
loop exits: d.queue = append(d.queue, tmpQueue...). -/
def drainInFinish (q tmp : List (Option Task)) : List (Option Task) := q ++ tmp

/-- Final append of the qout drain goroutine, run under lock after its range
loop exits: d.queue = append(tmpQueue, d.queue...). -/
def drainOutFinish (q tmp : List (Option Task)) : List (Option Task) := tmp ++ q

/-- Observable overflow slice d.queue after n steps of one drain goroutine:
the goroutine's final append (finish = drainInFinish for the qin drain,
drainOutFinish for the qout drain) runs only once its range loop has exited
into the done state; until then the overflow q is untouched by this
goroutine. -/
def overflowAfter (closed : Bool)
    (finish : List (Option Task) → List (Option Task) → List (Option Task))
    (s0 : DrainState) (q : List (Option Task)) (n : Nat) :
    List (Option Task) :=
  match (drainStep closed)^[n] s0 with
  | .done tmp => finish q tmp
  | _ => q

/-- A started one-worker dispatcher with one job resident in its intake
queue: a concrete receiver state for Stop.  (Reachable: New 1, Start, Add
while the relay has not yet moved the job.) -/
def exStopReceiver : Dispatcher :=
  { New 1 with
    running := true
    hasCancel := true
    qin := ⟨[some ⟨none⟩], 100⟩
    workers := [⟨0, true⟩] }

/-- A non-running dispatcher whose two workers are still flagged running:
exactly the receiver state left behind by Stop on a started two-worker
dispatcher (Stop never clears the workers' running flags). -/
def exDownNotRunning : Dispatcher :=
  { New 2 with workers := [⟨0, true⟩, ⟨0, true⟩] }

/-! Helper lemmas shared by the claim theorems. -/

/-- Removing the element at a valid index is a permutation after putting the
element back in front. -/
lemma perm_cons_eraseIdx {α : Type} :
    ∀ (l : List α) (i : Nat) (h : i < l.length),
      l.Perm (l[i] :: l.eraseIdx i)
  | _ :: _, 0, _ => by simp
  | a :: t, j + 1, h => by
    have hj : j < t.length := by simpa using h
    have h1 := perm_cons_eraseIdx t j hj
    have h2 := h1.cons a
    refine h2.trans ?_
    simpa using List.Perm.swap _ _ _

lemma startAll_length (ws : List Worker) : (startAll ws).length = ws.length := by
  simp [startAll]

lemma startAll_kill (ws : List Worker) (hk : ∀ w ∈ ws, w.kill = 0) :
    ∀ w ∈ startAll ws, w.kill = 0 := by
  intro w hw
  simp only [startAll, List.mem_map] at hw
  obtain ⟨w0, hw0, rfl⟩ := hw
  cases hr : w0.running <;> simp [hr, hk w0 hw0]

lemma startAll_of_running (ws : List Worker) (h : ∀ w ∈ ws, w.running = true) :
    startAll ws = ws := by
  unfold startAll
  have hcong : ∀ a ∈ ws, (if a.running then a else { a with running := true }) = id a := by
    intro a ha
    simp [h a ha]
  rw [List.map_congr_left hcong, List.map_id]

/-- Complete specification of the DownScale removal loop, by induction on the
remaining diff: it succeeds whenever the diff fits under the worker-slice
length and every kill buffer is empty, removes exactly diff workers, leaves
the survivors untouched (a sublist of the input), stops each removed worker
exactly when the dispatcher and that worker are running, and loses nobody
(remaining plus removed is a permutation of the input). -/
lemma dsLoop_spec (r : Bool) (fuel : Nat) :
    ∀ (idx : Nat) (ws : List Worker) (acc : List (Worker × Worker)),
      fuel ≤ ws.length → (0 < fuel → idx < ws.length) →
      (∀ w ∈ ws, w.kill = 0) →
      ∃ ws1 pairs, dsLoop r fuel idx ws acc = some (ws1, pairs) ∧
        ws1.length = ws.length - fuel ∧
        pairs.length = fuel + acc.length ∧
        ws1.Sublist ws ∧
        (∀ p ∈ pairs, p ∈ acc ∨ (p.1 ∈ ws ∧ p.2 = stopIf r p.1)) ∧
        (ws1 ++ pairs.map Prod.fst).Perm (ws ++ acc.map Prod.fst) := by
  induction fuel with
  | zero =>
    intro idx ws acc _ _ _
    exact ⟨ws, acc, rfl, by omega, by omega, List.Sublist.refl ws,
      fun p hp => Or.inl hp, List.Perm.refl _⟩
  | succ fuel ih =>
    intro idx ws acc hf hi hk
    have hidx : idx < ws.length := hi (Nat.succ_pos fuel)
    have hw : ws[idx]? = some ws[idx] := List.getElem?_eq_getElem hidx
    have hwk : ws[idx].kill = 0 := hk _ (List.getElem_mem hidx)
    have hstop : (if r && ws[idx].running then ws[idx].stop else some ws[idx]) =
        some (stopIf r ws[idx]) := by
      unfold Worker.stop stopIf
      cases hc : r && ws[idx].running <;> simp [hc, hwk]
    have hlen1 : (ws.eraseIdx idx).length = ws.length - 1 := by
      simp [List.length_eraseIdx, hidx]
    have hred : dsLoop r (fuel + 1) idx ws acc =
        dsLoop r fuel
          (if idx + 1 ≥ (ws.eraseIdx idx).length then 0 else idx + 1)
          (ws.eraseIdx idx) ((ws[idx], stopIf r ws[idx]) :: acc) := by
      rw [dsLoop, hw, Option.some_bind, hstop, Option.some_bind]
    have hf1 : fuel ≤ (ws.eraseIdx idx).length := by omega
    have hi1 : 0 < fuel →
        (if idx + 1 ≥ (ws.eraseIdx idx).length then 0 else idx + 1) <
          (ws.eraseIdx idx).length := by
      intro hpos
      split <;> omega
    have hk1 : ∀ w ∈ ws.eraseIdx idx, w.kill = 0 :=
      fun w hmem => hk w ((List.eraseIdx_sublist ws idx).subset hmem)
    obtain ⟨ws2, pairs, heq, hlen, hplen, hsub, hpr, hperm⟩ :=
      ih _ (ws.eraseIdx idx) ((ws[idx], stopIf r ws[idx]) :: acc) hf1 hi1 hk1
    refine ⟨ws2, pairs, hred.trans heq, by omega, by simp at hplen; omega,
      hsub.trans (List.eraseIdx_sublist ws idx), ?_, ?_⟩
    · intro p hp
      rcases hpr p hp with hin | ⟨hmem, hs⟩
      · rcases List.mem_cons.mp hin with hpe | hacc
        · subst hpe
          exact Or.inr ⟨List.getElem_mem hidx, rfl⟩
        · exact Or.inl hacc
      · exact Or.inr ⟨(List.eraseIdx_sublist ws idx).subset hmem, hs⟩
    · have hmid : ((ws.eraseIdx idx) ++
          (((ws[idx], stopIf r ws[idx]) :: acc).map Prod.fst)).Perm
          (ws ++ acc.map Prod.fst) := by
        have hstep : ((ws[idx] :: ws.eraseIdx idx) ++ acc.map Prod.fst).Perm
            (ws ++ acc.map Prod.fst) :=
          (perm_cons_eraseIdx ws idx hidx).symm.append_right (acc.map Prod.fst)
        exact List.perm_middle.trans hstep
      exact hperm.trans hmid

/-- The capacity ScaleBuffer(size) installs is never negative when size is
not, so the two channel makes succeed. -/
lemma scaleBuffer_eq (d : Dispatcher) (size : Int) (h : 0 ≤ size) :
    ScaleBuffer d size =
      some { d with
        qin := ⟨[], (min (size * 100) bufferSizeLimit).toNat⟩
        qout := ⟨[], (min (size * 100) bufferSizeLimit).toNat⟩
        wg := d.wg + 2 } := by
  have hsz : ¬ (min (size * 100) bufferSizeLimit < 0) := by
    unfold bufferSizeLimit
    omega
  simp [ScaleBuffer, chanMake, hsz]

/-- Specification of UpScale for a non-negative requested count: buffers are
replaced by fresh empty channels of capacity min(n*100*100, limit), the
worker slice gains max(n - len, 0) fresh workers (all started when the
dispatcher is running, because Start is called), and the target workerCount
becomes n. -/
lemma upScale_spec (d : Dispatcher) (n : Int) (h0 : 0 ≤ n) :
    ∃ d1, UpScale d n = some d1 ∧
      d1.workerCount = n ∧
      d1.workers = (if d.running then
          startAll (d.workers ++
            List.replicate (n - (d.workers.length : Int)).toNat mkWorker)
        else d.workers ++
          List.replicate (n - (d.workers.length : Int)).toNat mkWorker) ∧
      d1.qin = ⟨[], (min (n * 100 * 100) bufferSizeLimit).toNat⟩ ∧
      d1.qout = ⟨[], (min (n * 100 * 100) bufferSizeLimit).toNat⟩ ∧
      d1.running = d.running := by
  have hsb := scaleBuffer_eq d (n * 100) (by omega)
  unfold UpScale
  rw [hsb, Option.map_some']
  cases hr : d.running <;>
    simp [Start, StartWithContext, hr, mul_assoc]

/-- Specification of DownScale (with the removed workers reported) for
0 ≤ n ≤ len(workers) and empty kill buffers: it succeeds, leaves exactly
n workers — an untouched sublist of the originals — sets workerCount to n,
removes exactly len - n workers, stops each removed worker exactly when the
dispatcher and that worker were running, and the survivors plus the removed
originals are a permutation of the original worker slice. -/
lemma downScaleFull_spec (d : Dispatcher) (n : Int) (h0 : 0 ≤ n)
    (h2 : n ≤ (d.workers.length : Int)) (hk : ∀ w ∈ d.workers, w.kill = 0) :
    ∃ d1 removed, DownScaleFull d n = some (d1, removed) ∧
      d1.workers.length = n.toNat ∧
      d1.workerCount = n ∧
      removed.length = ((d.workers.length : Int) - n).toNat ∧
      d1.workers.Sublist d.workers ∧
      (∀ p ∈ removed, p.1 ∈ d.workers ∧ p.2 = stopIf d.running p.1) ∧
      (d1.workers ++ removed.map Prod.fst).Perm d.workers := by
  have hsb := scaleBuffer_eq d (n * 100) (by omega)
  have hf : ((d.workers.length : Int) - n).toNat ≤ d.workers.length := by omega
  have hi : 0 < ((d.workers.length : Int) - n).toNat → 0 < d.workers.length := by
    omega
  obtain ⟨ws1, pairs, heq, hlen, hplen, hsub, hpr, hperm⟩ :=
    dsLoop_spec d.running (((d.workers.length : Int) - n).toNat) 0 d.workers []
      hf hi hk
  unfold DownScaleFull
  rw [hsb, Option.some_bind]
  dsimp only
  rw [heq, Option.map_some']
  refine ⟨_, pairs, rfl, ?_, rfl, ?_, hsub, ?_, ?_⟩
  · dsimp only
    omega
  · simpa using hplen
  · intro p hp
    rcases hpr p hp with hin | hgood
    · simp at hin
    · exact hgood
  · simpa using hperm

/-- A single drain step never manufactures the done state: only a closed
channel lets the range loop exit. -/
lemma drainStep_not_done (s : DrainState)
    (h : ∀ tmp, s ≠ DrainState.done tmp) :
    ∀ tmp, drainStep false s ≠ DrainState.done tmp := by
  intro tmp
  cases s with
  | looping rem t => cases rem <;> simp [drainStep]
  | blocked t => simp [drainStep]
  | done t => exact absurd rfl (h t)

lemma drain_iterate_not_done (n : Nat) :
    ∀ s : DrainState, (∀ tmp, s ≠ DrainState.done tmp) →
      ∀ tmp, (drainStep false)^[n] s ≠ DrainState.done tmp := by
  induction n with
  | zero =>
    intro s hs
    simpa using hs
  | succ n ih =>
    intro s hs tmp
    rw [Function.iterate_succ_apply]
    exact ih (drainStep false s) (drainStep_not_done s hs) tmp

lemma drain_iterate_blocked (resident : List (Option Task)) :
    ∀ tmp : List (Option Task),
      (drainStep false)^[resident.length + 1] (DrainState.looping resident tmp) =
        DrainState.blocked (tmp ++ resident) := by
  induction resident with
  | nil =>
    intro tmp
    simp [drainStep]
  | cons j rest ih =>
    intro tmp
    have hstep : drainStep false (DrainState.looping (j :: rest) tmp) =
        DrainState.looping rest (tmp ++ [j]) := rfl
    calc (drainStep false)^[(j :: rest).length + 1]
          (DrainState.looping (j :: rest) tmp)
        = (drainStep false)^[rest.length + 1]
            (drainStep false (DrainState.looping (j :: rest) tmp)) := by
          rw [← Function.iterate_succ_apply]
          rfl
      _ = DrainState.blocked ((tmp ++ [j]) ++ rest) := by rw [hstep]; exact ih _
      _ = DrainState.blocked (tmp ++ j :: rest) := by simp

/-- C2: the spec requires each drain goroutine of a queue migration to
terminate once the jobs resident at swap time are drained, but the code
iterates the previous channel with a range loop and no code path ever closes
a queue channel, so the loop can never reach its exit state: from any
resident snapshot, no number of steps reaches done, and after consuming the
resident jobs the drain is parked forever on the empty channel nobody writes
to or closes. -/
theorem c2_drain_never_terminates :
    (∀ (resident : List (Option Task)) (n : Nat) (tmp : List (Option Task)),
      (drainStep false)^[n] (DrainState.looping resident []) ≠
        DrainState.done tmp) ∧
    (∀ resident : List (Option Task),
      (drainStep false)^[resident.length + 1] (DrainState.looping resident []) =
        DrainState.blocked resident) := by
  constructor
  · intro resident n tmp
    exact drain_iterate_not_done n _ (by intro t; simp) tmp
  · intro resident
    simpa using drain_iterate_blocked resident []

/-- C1 (amended): for every running dispatcher (whose Start has installed a
cancel function, as is always the case once running), Stop — for either
value of immediate — RETURNS the freshly constructed dispatcher
New(len(workers)): fresh empty queues, a fresh not-started worker set of
size max(pre-stop count, 1), and a fresh uncancelled lifecycle token.  The
receiver handle itself is only marked not running with its lifecycle token
cancelled: the d = New(len(d.workers)) assignment in Stop rebinds the local
pointer, so the fresh generation is reachable through the return value
alone, and a Start on the caller's original handle does not use it. -/
theorem c1_stop_fresh_generation (d : Dispatcher) (imm : Bool)
    (hrun : d.running = true) (hc : d.hasCancel = true) :
    Stop d imm =
      some ({ d with running := false, cancelled := true },
            New (d.workers.length : Int)) ∧
    (New (d.workers.length : Int)).qin.buf = [] ∧
    (New (d.workers.length : Int)).qout.buf = [] ∧
    (New (d.workers.length : Int)).workers =
      List.replicate (max (d.workers.length : Int) 1).toNat mkWorker ∧
    (New (d.workers.length : Int)).running = false ∧
    (New (d.workers.length : Int)).cancelled = false ∧
    (New (d.workers.length : Int)).hasCancel = false := by
  refine ⟨?_, rfl, rfl, ?_, rfl, rfl, rfl⟩
  · unfold Stop Wait
    rw [hrun, hc]
    cases imm <;> simp [hc]
  · show List.replicate
        (if (d.workers.length : Int) < 1 then 1 else (d.workers.length : Int)).toNat
        mkWorker = _
    have hmax : (if (d.workers.length : Int) < 1 then 1
        else (d.workers.length : Int)) = max (d.workers.length : Int) 1 := by
      split <;> omega
    rw [hmax]

/-- C1 witness: the amended theorem applied to a concrete started one-worker
dispatcher. -/
theorem c1_stop_fresh_generation_witness :
    Stop { New 1 with running := true, hasCancel := true } true =
      some ({ { New 1 with running := true, hasCancel := true } with
                running := false, cancelled := true },
            New ((({ New 1 with running := true, hasCancel := true } :
                Dispatcher).workers.length : Int))) :=
  (c1_stop_fresh_generation
    { New 1 with running := true, hasCancel := true } true rfl rfl).1

/-- C1 counterexample: Stop(true) on a concrete running dispatcher does not
leave the handle with a fresh internal generation.  The receiver keeps the
old intake queue — still holding its job — and the old worker record — still
flagged running — and its lifecycle token is cancelled rather than fresh;
only the returned pointer is the fresh New-built dispatcher. -/
theorem c1_stop_receiver_not_fresh :
    Stop exStopReceiver true =
      some ({ exStopReceiver with running := false, cancelled := true },
            New 1) ∧
    ({ exStopReceiver with running := false, cancelled := true }).qin.buf ≠
      [] ∧
    ({ exStopReceiver with running := false, cancelled := true }).workers ≠
      List.replicate 1 mkWorker ∧
    ({ exStopReceiver with running := false, cancelled := true }).cancelled =
      true := by
  refine ⟨by decide, by decide, by decide, rfl⟩

/-- C3 counterexample: for a negative requested count — which is ≤ the
current worker-set size — UpScale is not a worker-set no-op that still
resizes the buffers: ScaleBuffer forwards the negative capacity to make,
which panics, so the call completes with no resized dispatcher at all. -/
theorem c3_upscale_negative_panics : UpScale (New 2) (-3) = none := by decide

/-- C3 (amended, restricted to non-negative n; for negative n the channel
make inside ScaleBuffer panics): for every dispatcher whose started state is
consistent (running implies every resident worker runs, an invariant of all
reachable states) and every n ≥ 0, UpScale(n) appends exactly
max(n − len(workers), 0) newly constructed workers — started exactly when
the dispatcher is running, not-yet-started otherwise — sets the target
workerCount to n, and leaves the previous workers unchanged (in particular a
no-op on the worker set when n ≤ len(workers)) while still replacing both
queue buffers with fresh ones of capacity min(n*100*100, limit). -/
theorem c3_upscale_spec (d : Dispatcher) (n : Int) (h0 : 0 ≤ n)
    (hstarted : d.running = true → ∀ w ∈ d.workers, w.running = true) :
    ∃ d1, UpScale d n = some d1 ∧
      d1.workerCount = n ∧
      d1.workers = d.workers ++
        List.replicate (n - (d.workers.length : Int)).toNat ⟨0, d.running⟩ ∧
      d1.qin = ⟨[], (min (n * 100 * 100) bufferSizeLimit).toNat⟩ ∧
      d1.qout = ⟨[], (min (n * 100 * 100) bufferSizeLimit).toNat⟩ := by
  obtain ⟨d1, heq, hwc, hws, hqin, hqout, hrun⟩ := upScale_spec d n h0
  refine ⟨d1, heq, hwc, ?_, hqin, hqout⟩
  rw [hws]
  cases hr : d.running with
  | false => simp [mkWorker]
  | true =>
    rw [if_pos rfl]
    have h1 : startAll d.workers = d.workers :=
      startAll_of_running _ (hstarted hr)
    unfold startAll at h1 ⊢
    rw [List.map_append, h1, List.map_replicate]
    rfl

/-- C3 witness: the amended theorem applied to a fresh not-running
one-worker dispatcher scaled up to 3 workers. -/
theorem c3_upscale_spec_witness :
    ∃ d1, UpScale (New 1) 3 = some d1 ∧
      d1.workerCount = 3 ∧
      d1.workers = (New 1).workers ++
        List.replicate ((3 : Int) - ((New 1).workers.length : Int)).toNat
          ⟨0, (New 1).running⟩ ∧
      d1.qin = ⟨[], (min ((3 : Int) * 100 * 100) bufferSizeLimit).toNat⟩ ∧
      d1.qout = ⟨[], (min ((3 : Int) * 100 * 100) bufferSizeLimit).toNat⟩ :=
  c3_upscale_spec (New 1) 3 (by decide) (by decide)

/-- C4 counterexample: DownScale(1) on a concrete non-running dispatcher
whose workers are still flagged running (the state Stop leaves behind)
removes a worker that is currently running yet sends it no stop signal —
its kill buffer stays empty and even its running flag survives — because
the code guards the signal with d.running as well as worker.running. -/
theorem c4_no_stop_signal_when_not_running :
    (DownScaleFull exDownNotRunning 1).map
        (fun p => p.2.map (fun q => (q.1.running, q.2.kill, q.2.running))) =
      some [(true, 0, true)] := by decide

/-- C4 (amended: the stop signal additionally requires the dispatcher itself
to be running, exactly as coded): for every dispatcher with empty resident
kill buffers (an invariant of reachable states) and every n with
1 ≤ n ≤ len(workers), DownScale(n) removes exactly len − n workers starting
from the rotating index, leaves exactly n workers — an untouched sublist of
the originals, so nobody else is signalled — sets the target workerCount to
n, loses no worker (survivors plus removed originals permute the original
set), and sends the single stop signal to exactly those removed workers that
are running while the dispatcher is running. -/
theorem c4_downscale_spec (d : Dispatcher) (n : Int)
    (h1 : 1 ≤ n) (h2 : n ≤ (d.workers.length : Int))
    (hk : ∀ w ∈ d.workers, w.kill = 0) :
    ∃ d1 removed, DownScaleFull d n = some (d1, removed) ∧
      d1.workers.length = n.toNat ∧
      d1.workerCount = n ∧
      removed.length = ((d.workers.length : Int) - n).toNat ∧
      d1.workers.Sublist d.workers ∧
      (∀ p ∈ removed,
        p.1 ∈ d.workers ∧
        p.2.kill = (if d.running && p.1.running then p.1.kill + 1
          else p.1.kill) ∧
        p.2.running = (if d.running && p.1.running then false
          else p.1.running)) ∧
      (d1.workers ++ removed.map Prod.fst).Perm d.workers := by
  obtain ⟨d1, removed, heq, hlen, hwc, hrl, hsub, hpr, hperm⟩ :=
    downScaleFull_spec d n (by omega) h2 hk
  refine ⟨d1, removed, heq, hlen, hwc, hrl, hsub, ?_, hperm⟩
  intro p hp
  obtain ⟨hmem, hstop⟩ := hpr p hp
  refine ⟨hmem, ?_, ?_⟩ <;> rw [hstop] <;> unfold stopIf <;> split <;> simp

/-- C4 witness: the amended theorem applied to a fresh three-worker
dispatcher scaled down to 2 workers. -/
theorem c4_downscale_spec_witness :
    ∃ d1 removed, DownScaleFull (New 3) 2 = some (d1, removed) ∧
      d1.workers.length = (2 : Int).toNat ∧
      d1.workerCount = 2 ∧
      removed.length = (((New 3).workers.length : Int) - 2).toNat ∧
      d1.workers.Sublist (New 3).workers ∧
      (∀ p ∈ removed,
        p.1 ∈ (New 3).workers ∧
        p.2.kill = (if (New 3).running && p.1.running then p.1.kill + 1
          else p.1.kill) ∧
        p.2.running = (if (New 3).running && p.1.running then false
          else p.1.running)) ∧
      (d1.workers ++ removed.map Prod.fst).Perm (New 3).workers :=
  c4_downscale_spec (New 3) 2 (by decide) (by decide) (by decide)

/-- C5: whenever the intake queue has room (Add otherwise blocks as
backpressure), Add(job) increments the pending counter exactly once,
enqueues the wrapped job onto the intake queue, and returns a fresh
single-use capacity-1 completion channel; when a worker later executes the
job — on whatever dispatcher state then holds — the pending counter is
decremented exactly once regardless of the job's outcome and the completion
channel receives exactly the job's returned error or success. -/
theorem c5_add_run_spec (d : Dispatcher) (job : Res)
    (hroom : d.qin.buf.length < d.qin.cap) :
    ∃ d1 ech t, Add d job = some (d1, ech, t) ∧
      d1.wg = d.wg + 1 ∧
      d1.qin.buf = d.qin.buf ++ [some t] ∧
      d1.qin.cap = d.qin.cap ∧
      t.res = job ∧
      ech = ⟨[], 1⟩ ∧
      (∀ d2 : Dispatcher, runTask d2 (some t) ech =
        some ({ d2 with wg := d2.wg - 1 }, ⟨[job], 1⟩)) := by
  unfold Add chanSend
  dsimp only
  rw [if_pos hroom]
  refine ⟨_, _, _, rfl, rfl, rfl, rfl, rfl, rfl, ?_⟩
  intro d2
  simp [runTask, chanSend]

/-- C5 witness: the theorem applied to a fresh dispatcher and a failing job. -/
theorem c5_add_run_spec_witness :
    ∃ d1 ech t, Add (New 1) (some 7) = some (d1, ech, t) ∧
      d1.wg = (New 1).wg + 1 ∧
      d1.qin.buf = (New 1).qin.buf ++ [some t] ∧
      d1.qin.cap = (New 1).qin.cap ∧
      t.res = some 7 ∧
      ech = ⟨[], 1⟩ ∧
      (∀ d2 : Dispatcher, runTask d2 (some t) ech =
        some ({ d2 with wg := d2.wg - 1 }, ⟨[some 7], 1⟩)) :=
  c5_add_run_spec (New 1) (some 7) (by decide)

/-- C6: the claimed placement of migrated jobs in the overflow never
happens.  The appends that would prepend the old output queue's jobs and
append the old intake queue's jobs (drainOutFinish / drainInFinish) sit
after the drain range loops, and run only in the loop-exit state — which,
with no code path ever closing a queue channel, is unreachable: starting
from any resident snapshot of either old queue, after any number of steps
the new generation's overflow is exactly what it was, and the drained jobs
are stranded in the blocked goroutine's local tmpQueue. -/
theorem c6_migration_never_reaches_overflow :
    ∀ (resident q : List (Option Task)) (n : Nat),
      overflowAfter false drainInFinish (DrainState.looping resident []) q n =
        q ∧
      overflowAfter false drainOutFinish (DrainState.looping resident []) q n =
        q := by
  intro resident q n
  have hnd : ∀ tmp, (drainStep false)^[n] (DrainState.looping resident []) ≠
      DrainState.done tmp :=
    drain_iterate_not_done n _ (by intro t; simp)
  constructor <;>
    · unfold overflowAfter
      cases hs : (drainStep false)^[n] (DrainState.looping resident []) with
      | done tmp => exact absurd hs (hnd tmp)
      | looping rem tmp => rfl
      | blocked tmp => rfl

/-- C8: the completion channel built by Add is a buffered channel of
capacity one that starts empty, so the executing worker's single delivery of
the outcome always finds room and never blocks, even if the caller never
reads the channel. -/
theorem c8_completion_channel_buffered (d : Dispatcher) (job : Res)
    (hroom : d.qin.buf.length < d.qin.cap) :
    ∃ d1 ech t, Add d job = some (d1, ech, t) ∧
      ech.cap = 1 ∧
      ech.buf = [] ∧
      (∀ r : Res, chanSend ech r = some ⟨[r], 1⟩) := by
  unfold Add chanSend
  dsimp only
  rw [if_pos hroom]
  refine ⟨_, _, _, rfl, rfl, rfl, ?_⟩
  intro r
  simp [chanSend]

/-- C8 witness: the theorem applied to a fresh two-worker dispatcher and a
succeeding job. -/
theorem c8_completion_channel_buffered_witness :
    ∃ d1 ech t, Add (New 2) none = some (d1, ech, t) ∧
      ech.cap = 1 ∧
      ech.buf = [] ∧
      (∀ r : Res, chanSend ech r = some ⟨[r], 1⟩) :=
  c8_completion_channel_buffered (New 2) none (by decide)

/-- C9: a worker that dequeues a nil job does not invoke it — its completion
state is untouched — but the deferred wg.Done still decrements the pending
counter exactly once, so Wait is not left permanently pending by a nil
entry. -/
theorem c9_nil_job_decrements (d : Dispatcher) (ech : GoChan Res) :
    runTask d none ech = some ({ d with wg := d.wg - 1 }, ech) := rfl

/-- AutoScale converges the actual worker count to the target in one call
whenever the target is at least 1 and the resident kill buffers are empty:
it delegates to DownScale when over target, UpScale when under, and does
nothing at the target. -/
lemma autoScale_spec (d : Dispatcher) (hm : 0 ≤ d.workerCount)
    (hk : ∀ w ∈ d.workers, w.kill = 0) :
    ∃ d1, AutoScale d = some d1 ∧
      (d1.workers.length : Int) = d.workerCount ∧
      d1.workerCount = d.workerCount := by
  unfold AutoScale
  rcases lt_trichotomy d.workerCount (d.workers.length : Int) with hlt | heq | hgt
  · rw [if_pos hlt]
    obtain ⟨d1, removed, heq1, hlen, hwc, _, _, _, _⟩ :=
      downScaleFull_spec d d.workerCount (by omega) (by omega) hk
    refine ⟨d1, ?_, by omega, hwc⟩
    unfold DownScale
    rw [heq1, Option.map_some']
  · rw [if_neg (by omega), if_neg (by omega)]
    exact ⟨d, rfl, heq.symm, rfl⟩
  · rw [if_neg (by omega), if_pos (by omega)]
    obtain ⟨d1, heq1, hwc, hws, _, _, _⟩ := upScale_spec d d.workerCount (by omega)
    refine ⟨d1, heq1, ?_, hwc⟩
    have hlen1 : d1.workers.length = d.workers.length +
        (d.workerCount - (d.workers.length : Int)).toNat := by
      rw [hws]
      cases hd : d.running <;>
        simp [startAll, List.length_append, List.length_replicate]
    omega

/-- C7: construction never fails.  New(n) normalizes an invalid worker count
below 1 up to 1 and builds exactly max(n,1) fresh workers.  Get — from any
prior singleton state whose resident kill buffers are empty (an invariant of
reachable states), whether or not the one-time initialization has already
fired — always returns a dispatcher, which after Get's AutoScale
reconciliation has exactly max(n,1) workers. -/
theorem c7_construction_never_fails (n : Int) (inst : Dispatcher)
    (onceDone : Bool) (hk : ∀ w ∈ inst.workers, w.kill = 0) :
    ((New n).workers.length : Int) = max n 1 ∧
    ∃ d1, Get inst onceDone n = some d1 ∧
      (d1.workers.length : Int) = max n 1 := by
  have hNlen : ∀ m : Int, ((New m).workers.length : Int) = max m 1 := by
    intro m
    show ((List.replicate (if m < 1 then 1 else m).toNat mkWorker).length :
      Int) = max m 1
    rw [List.length_replicate]
    split <;> omega
  refine ⟨hNlen n, ?_⟩
  have hmax1 : (if n < 1 then 1 else n) = max n 1 := by split <;> omega
  have hm1 : (1 : Int) ≤ max n 1 := by omega
  unfold Get
  dsimp only
  rw [hmax1]
  cases onceDone with
  | false =>
    rw [if_neg Bool.false_ne_true]
    have hlen : ((New (max n 1)).workers.length : Int) = max n 1 := by
      have := hNlen (max n 1)
      omega
    rw [if_neg (by simp [hlen])]
    exact ⟨_, rfl, hlen⟩
  | true =>
    rw [if_pos rfl]
    by_cases hlen : ((inst.workers.length : Int) = max n 1)
    · rw [if_neg (by simp [hlen])]
      exact ⟨_, rfl, hlen⟩
    · rw [if_pos (by simpa using hlen)]
      obtain ⟨d1, heq, hlen1, _⟩ :=
        autoScale_spec { inst with workerCount := max n 1 }
          (by show (0 : Int) ≤ max n 1; omega) hk
      exact ⟨d1, heq, hlen1⟩

/-- C7 witness: the theorem applied with a negative requested count and a
prior five-worker singleton, exercising both the New normalization and the
DownScale path of Get's reconciliation. -/
theorem c7_construction_never_fails_witness :
    ((New (-4)).workers.length : Int) = max (-4) 1 ∧
    ∃ d1, Get (New 5) true (-4) = some d1 ∧
      (d1.workers.length : Int) = max (-4) 1 :=
  c7_construction_never_fails (-4) (New 5) true (by decide)

/-- C10 counterexample: for a negative n (still strictly less than the
current worker-set size), UpScale(n) does not set the target worker count at
all: it panics first inside ScaleBuffer on the negative channel capacity, so
no dispatcher state with workerCount = n exists and no later AutoScale can
shrink anything. -/
theorem c10_upscale_negative_no_target : UpScale (New 3) (-1) = none := by
  decide

/-- C10 (amended, restricted to 0 ≤ n; for negative n ScaleBuffer panics
before the target assignment): UpScale(n) sets the target workerCount to n
unconditionally, even when n is strictly below the current worker-set size —
in which case the worker set is left untouched and larger than the target —
and a subsequent AutoScale (as the Observer invokes) then shrinks the pool
to exactly n workers. -/
theorem c10_target_then_autoscale (d : Dispatcher) (n : Int)
    (h0 : 0 ≤ n) (hlt : n < (d.workers.length : Int))
    (hk : ∀ w ∈ d.workers, w.kill = 0) :
    ∃ d1, UpScale d n = some d1 ∧
      d1.workerCount = n ∧
      n < (d1.workers.length : Int) ∧
      ∃ d2, AutoScale d1 = some d2 ∧
        d2.workers.length = n.toNat ∧
        d2.workerCount = n := by
  obtain ⟨d1, heq, hwc, hws, _, _, _⟩ := upScale_spec d n h0
  have hkrep : (n - (d.workers.length : Int)).toNat = 0 := by omega
  have hws1 : d1.workers =
      (if d.running = true then startAll d.workers else d.workers) := by
    rw [hws, hkrep]
    simp
  have hlen1 : d1.workers.length = d.workers.length := by
    rw [hws1]
    cases hd : d.running <;> simp [startAll_length]
  have hk1 : ∀ w ∈ d1.workers, w.kill = 0 := by
    rw [hws1]
    cases hd : d.running <;> simp only [if_pos rfl, if_neg Bool.false_ne_true]
    · exact hk
    · exact startAll_kill d.workers hk
  obtain ⟨d2, heq2, hlen2, hwc2⟩ := autoScale_spec d1 (by omega) hk1
  refine ⟨d1, heq, hwc, by omega, d2, heq2, by omega, by omega⟩

/-- C10 witness: the amended theorem applied to a fresh two-worker
dispatcher whose target is lowered to 1 by UpScale(1) and then reconciled by
AutoScale. -/
theorem c10_target_then_autoscale_witness :
    ∃ d1, UpScale (New 2) 1 = some d1 ∧
      d1.workerCount = 1 ∧
      (1 : Int) < (d1.workers.length : Int) ∧
      ∃ d2, AutoScale d1 = some d2 ∧
        d2.workers.length = (1 : Int).toNat ∧
        d2.workerCount = 1 :=
  c10_target_then_autoscale (New 2) 1 (by decide) (by decide) (by decide)

end Gorker
